import Mathlib

/-!
Shallow embedding of the Starborn Academy QR-code generator:
the identity builders (`format.js`, `login.js`, the payload module),
the CSV normalization pipeline (`csv.js`), the bulk-CSV driver's row
filter, and the batched PDF export orchestrator (`pdf.js`).
Cell values and object values are modelled as Lean `String`s; a JS
value that may be `undefined`/`null` is modelled as `Option String`.
-/

/-- Whitespace per the JS `\s` class and `String.prototype.trim`:
tab..carriage-return, space, NBSP, Ogham space, the U+2000 block,
line/paragraph separators, narrow NBSP, math space, ideographic space, BOM. -/
def isJsWhitespace (c : Char) : Bool :=
  decide (c.toNat = 32 ∨ (9 ≤ c.toNat ∧ c.toNat ≤ 13) ∨ c.toNat = 160 ∨
    c.toNat = 5760 ∨ (8192 ≤ c.toNat ∧ c.toNat ≤ 8202) ∨ c.toNat = 8232 ∨
    c.toNat = 8233 ∨ c.toNat = 8239 ∨ c.toNat = 8287 ∨ c.toNat = 12288 ∨
    c.toNat = 65279)

/-- Remove leading and trailing elements satisfying `p`. -/
def trimChars (p : Char → Bool) (l : List Char) : List Char :=
  ((l.dropWhile p).reverse.dropWhile p).reverse

/-- Model of JS `String.prototype.trim`. -/
def jsTrim (s : String) : String := ⟨trimChars isJsWhitespace s.data⟩

/-- `cellStr` from `csv.js`: `(v ?? "").toString().trim()` on a string value. -/
def cellStr (v : String) : String := jsTrim v

/-- Model of JS `toLowerCase` (ASCII case mapping, which covers every
label the vocabulary uses). -/
def toLowerStr (s : String) : String := ⟨s.data.map Char.toLower⟩

/-- Replace each maximal run of characters satisfying `p` by a single
underscore, as JS `replace(/p+/g, "_")`.  `inRun` records whether the
previous character belonged to a run. -/
def replaceRuns (p : Char → Bool) : Bool → List Char → List Char
  | _, [] => []
  | inRun, c :: cs =>
    if p c then
      (if inRun then replaceRuns p true cs else '_' :: replaceRuns p true cs)
    else c :: replaceRuns p false cs

/-- `normalizeKey` from `csv.js`: trim, lowercase, collapse whitespace
runs to `_`, collapse hyphen runs to `_`. -/
def normalizeKey (k : String) : String :=
  ⟨replaceRuns (fun c => c == '-') false
    (replaceRuns isJsWhitespace false (toLowerStr (jsTrim k)).data)⟩

/-- `onlyDigits` from `format.js`: `replace(/\D+/g, "")`. -/
def onlyDigits (str : String) : String := ⟨str.data.filter Char.isDigit⟩

/-- Model of JS `String.prototype.repeat`. -/
def strRepeat (char : String) : Nat → String
  | 0 => ""
  | n + 1 => char ++ strRepeat char n

/-- `padLeft` from `format.js`. -/
def padLeft (value : String) (len : Nat) (char : String) : String :=
  if value.length ≥ len then value else strRepeat char (len - value.length) ++ value

/-- `buildUsername` from `login.js` (`prefix` is a reserved word in Lean,
so the first field is called `prefixStr`). -/
def buildUsername (prefixStr headsetNumber : String) (headsetPad : Nat) : String :=
  jsTrim prefixStr ++ "." ++ padLeft (onlyDigits headsetNumber) headsetPad "0"

/-- Lower-case hexadecimal digit, as used by `JSON.stringify` unicode escapes. -/
def hexDigitChar (n : Nat) : Char :=
  if n < 10 then Char.ofNat (48 + n) else Char.ofNat (87 + n)

/-- The expansion of one character under ECMА-404 / `QuoteJSONString`
as performed by `JSON.stringify` on string values. -/
def jsonEscapeChar (c : Char) : List Char :=
  if c = '"' then ['\\', '"']
  else if c = '\\' then ['\\', '\\']
  else if c = '\x08' then ['\\', 'b']
  else if c = '\t' then ['\\', 't']
  else if c = '\n' then ['\\', 'n']
  else if c = '\x0c' then ['\\', 'f']
  else if c = '\x0d' then ['\\', 'r']
  else if c.toNat < 32 then
    ['\\', 'u', '0', '0', hexDigitChar (c.toNat / 16), hexDigitChar (c.toNat % 16)]
  else [c]

/-- Escape every character of a string body, per `JSON.stringify`. -/
def escapeChars : List Char → List Char
  | [] => []
  | c :: cs => jsonEscapeChar c ++ escapeChars cs

/-- `JSON.stringify` of a string value: quoted, body escaped. -/
def jsonQuote (s : String) : String := ⟨'"' :: (escapeChars s.data ++ ['"'])⟩

/-- `buildPayload` from the payload module: `JSON.stringify` of the object
with fields `version`, `username`, `groupcode` in that declaration order. -/
def buildPayload (username groupCode : String) : String :=
  "\x7b\"version\":\"1.0\",\"username\":" ++ jsonQuote username ++
    ",\"groupcode\":" ++ jsonQuote groupCode ++ "\x7d"

/-- Loop body of `carryForward` from `csv.js`: `last` is the most recent
non-blank (after `cellStr`) value; a blank cell is overwritten with `last`,
a non-blank cell is kept as written and updates `last` to its trimmed form. -/
def carryForwardAux : String → List String → List String
  | _, [] => []
  | last, v :: rest =>
    if cellStr v = "" then last :: carryForwardAux last rest
    else v :: carryForwardAux (cellStr v) rest

/-- `carryForward` from `csv.js`. -/
def carryForward (values : List String) : List String := carryForwardAux "" values

/-- The `known` label set of `isProbablyHeaderRow` in `csv.js`. -/
def knownLabels : List String :=
  ["group", "group_code", "groupcode", "period", "per", "headset",
   "headset_number", "headsetnumber", "headset_no", "headset_num",
   "prefix", "pad", "padding", "headset_digits", "headset_pad"]

/-- `isProbablyHeaderRow` from `csv.js`. -/
def isProbablyHeaderRow (row : List String) : Bool :=
  if row.length < 2 then false
  else decide (2 ≤ (row.map (fun c => normalizeKey (cellStr c))).countP
    (fun k => knownLabels.contains k))

/-- `pick` from `csv.js`: first key whose value is present (not
null/undefined) and non-empty.  A row object is modelled as a partial map
from (normalized) keys to string values. -/
def pick (obj : String → Option String) : List String → Option String
  | [] => none
  | k :: ks =>
    match obj k with
    | none => pick obj ks
    | some v => if v = "" then pick obj ks else some v

/-- Canonical normalized row (`{group, period, headset, prefix?, pad?}`);
`prefix` is a reserved word in Lean, so that field is called `prefixStr`. -/
structure CanonicalRow where
  group : Option String
  period : Option String
  headset : Option String
  prefixStr : Option String
  pad : Option String
deriving DecidableEq

/-- Synonym list for the `group` field in `normalizeCsvRow`. -/
def groupKeys : List String := ["group", "group_code", "groupcode"]

/-- Synonym list for the `period` field in `normalizeCsvRow`. -/
def periodKeys : List String := ["period", "per"]

/-- Synonym list for the `headset` field in `normalizeCsvRow`. -/
def headsetKeys : List String :=
  ["headset", "headset_number", "headsetnumber", "headset_no", "headset_num"]

/-- Synonym list for the `prefix` field in `normalizeCsvRow`. -/
def prefixKeys : List String := ["prefix", "class_prefix", "teacher_prefix"]

/-- Synonym list for the `pad` field in `normalizeCsvRow`. -/
def padKeys : List String := ["pad", "padding", "headset_pad", "headset_digits"]

/-- Header-object path of `normalizeCsvRow` from `csv.js`. -/
def normalizeCsvRowHeader (r : String → Option String) : CanonicalRow :=
  { group := pick r groupKeys
    period := pick r periodKeys
    headset := pick r headsetKeys
    prefixStr := pick r prefixKeys
    pad := pick r padKeys }

/-- Positional (no-header) path of `normalizeCsvRow` from `csv.js`. -/
def normalizeCsvRowPositional (row : List String) : CanonicalRow :=
  { group := row[0]?, period := row[1]?, headset := row[2]?,
    prefixStr := row[3]?, pad := row[4]? }

/-- Modelled from the spec: declarative reading of the synonym contract —
the value of the first synonym key that is present with a non-empty value. -/
def firstPresentNonEmpty (r : String → Option String) (keys : List String) : Option String :=
  (keys.filterMap (fun k =>
    match r k with
    | some v => if v = "" then none else some v
    | none => none)).head?

/-- The usability filter of `generateFromCsv` in the bulk-CSV driver:
`(r.group ?? "") !== "" || (r.period ?? "") !== "" || (r.headset ?? "") !== ""`. -/
def usableRow (r : CanonicalRow) : Bool :=
  !(r.group.getD "" == "") || !(r.period.getD "" == "") || !(r.headset.getD "" == "")

/-- The candidate set the bulk-CSV driver passes on to per-row validation. -/
def candidateRows (normalized : List CanonicalRow) : List CanonicalRow :=
  normalized.filter usableRow

/-- The driver's ok/bad tallies over the candidate set.  Per-row validation
(`readRowAsInput` succeeding) is abstracted as the predicate `valid`, since
the filter under scrutiny runs before any validation. -/
def csvOkBad (valid : CanonicalRow → Bool) (normalized : List CanonicalRow) : Nat × Nat :=
  ((candidateRows normalized).countP valid,
   (candidateRows normalized).countP (fun r => !(valid r)))

/-- One `{groupCode, username, teacher, period}` record produced by
`extractMasterUsernames`. -/
structure MasterEntry where
  groupCode : String
  username : String
  teacher : String
  period : String
deriving DecidableEq

/-- Row indexes discovered by the label scan of `extractMasterUsernames`
(`none` models the JS sentinel `-1`). -/
structure ScanIdx where
  teacher : Option Nat
  group : Option Nat
  periods : Option Nat
  usernames : Option Nat

/-- The label-scanning loop of `extractMasterUsernames`: record the index
of each label row, breaking early once all four are found. -/
def scanLabels : Nat → List (List String) → ScanIdx → ScanIdx
  | _, [], st => st
  | i, r :: rest, st =>
    let st2 :=
      if r.length = 0 then st
      else
        let label := normalizeKey (cellStr (r.headD ""))
        if label = "teacher" then { st with teacher := some i }
        else if label = "group_code" then { st with group := some i }
        else if label = "class_periods" then { st with periods := some i }
        else if label = "usernames" then { st with usernames := some i }
        else st
    if st2.teacher.isSome && st2.group.isSome && st2.periods.isSome && st2.usernames.isSome
    then st2
    else scanLabels (i + 1) rest st2

/-- `extractMasterUsernames` from `csv.js`.  Rows are lists of cell
strings; a missing cell reads as `""` exactly as `cellStr(undefined)` does. -/
def extractMasterUsernames (rawRows : List (List String)) : List MasterEntry :=
  match rawRows with
  | [] => []
  | _ :: _ =>
    let st := scanLabels 0 rawRows ⟨none, none, none, none⟩
    match st.group, st.usernames with
    | some groupRowIndex, some usernamesRowIndex =>
      let groupRow := rawRows.getD groupRowIndex []
      let teachers :=
        match st.teacher with
        | some i => carryForward (((rawRows.getD i []).drop 1).map cellStr)
        | none => []
      let groupCodes := carryForward ((groupRow.drop 1).map cellStr)
      let periods :=
        match st.periods with
        | some i => carryForward (((rawRows.getD i []).drop 1).map cellStr)
        | none => []
      let maxCols := groupCodes.length
      ((rawRows.drop (usernamesRowIndex + 1)).map (fun row =>
        if row.length < 2 then []
        else
          let cols := min maxCols (row.length - 1)
          (List.range' 1 cols).filterMap (fun c =>
            let username := cellStr (row.getD c "")
            if username = "" then none
            else
              let groupCode := cellStr (groupCodes.getD (c - 1) "")
              if groupCode = "" then none
              else
                let teacher := if teachers.length ≠ 0 then cellStr (teachers.getD (c - 1) "") else ""
                let period := if periods.length ≠ 0 then cellStr (periods.getD (c - 1) "") else ""
                some ⟨groupCode, username, teacher, period⟩))).flatten
    | _, _ => []

/-- The `phase` field of a progress event in `pdf.js`. -/
inductive ProgressPhase where
  | batching
  | building
  | cancelled
  | opened
  | done
deriving DecidableEq

/-- One progress event `{phase, part, totalParts, done, total, remaining,
message}` as emitted by `buildQrPdfBatchedAndOpenWithProgress`. -/
structure ProgressEvent where
  phase : ProgressPhase
  part : Nat
  totalParts : Nat
  done : Nat
  total : Nat
  remaining : Nat
  message : String
deriving DecidableEq

/-- Observable outcome of the per-part export loop: emitted events, the
`(title, slice)` arguments of each `buildQrPdf` call, the indexes of the
parts presented via `window.open`, the cancellation flag, and the final
`done` counter. -/
structure LoopOut (α : Type) where
  events : List ProgressEvent
  builds : List (String × List α)
  openedParts : List Nat
  cancelled : Bool
  finalDone : Nat

/-- Observable behaviour of one call to
`buildQrPdfBatchedAndOpenWithProgress`: the trace plus either the thrown
error message or the returned `{cancelled, totalParts}`. -/
structure BatchRun (α : Type) where
  events : List ProgressEvent
  builds : List (String × List α)
  openedParts : List Nat
  outcome : Except String (Bool × Nat)

/-- The part-qualified title passed to `buildQrPdf` for one part. -/
def partTitleOf (title : String) (totalParts part : Nat) : String :=
  if 1 < totalParts then
    title ++ " (Part " ++ toString (part + 1) ++ " of " ++ toString totalParts ++ ")"
  else title

/-- The `for (let part = 0; part < totalParts; part++)` loop of
`buildQrPdfBatchedAndOpenWithProgress`.  `isC n` is the result of the
`n`-th call to the `isCancelled` predicate (two polls per completed part);
`partsLeft` counts the remaining iterations. -/
def batchLoop {α : Type} (items : List α) (ipp totalParts : Nat) (title : String)
    (isC : Nat → Bool) : Nat → Nat → Nat → Nat → LoopOut α
  | 0, _, doneAcc, _ => ⟨[], [], [], false, doneAcc⟩
  | partsLeft + 1, part, doneAcc, polls =>
    if isC polls then
      ⟨[⟨ProgressPhase.cancelled, part + 1, totalParts, doneAcc, items.length,
          items.length - doneAcc,
          "Cancelled. " ++ toString doneAcc ++ "/" ++ toString items.length ++ " completed."⟩],
        [], [], true, doneAcc⟩
    else
      let start := part * ipp
      let slice := (items.drop start).take ipp
      let pt := partTitleOf title totalParts part
      let buildingEv : ProgressEvent :=
        ⟨ProgressPhase.building, part + 1, totalParts, doneAcc, items.length,
          items.length - doneAcc,
          "Building PDF " ++ toString (part + 1) ++ "/" ++ toString totalParts ++
            " (" ++ toString slice.length ++ " QRs)..."⟩
      if isC (polls + 1) then
        ⟨[buildingEv,
          ⟨ProgressPhase.cancelled, part + 1, totalParts, doneAcc, items.length,
            items.length - doneAcc,
            "Cancelled after building PDF " ++ toString (part + 1) ++ "."⟩],
          [(pt, slice)], [], true, doneAcc⟩
      else
        let done2 := doneAcc + slice.length
        let openedEv : ProgressEvent :=
          ⟨ProgressPhase.opened, part + 1, totalParts, done2, items.length,
            items.length - done2,
            "Finished PDF " ++ toString (part + 1) ++ "/" ++ toString totalParts ++
              ". (" ++ toString done2 ++ "/" ++ toString items.length ++ " done, " ++
              toString (items.length - done2) ++ " remaining)"⟩
        let rest := batchLoop items ipp totalParts title isC partsLeft (part + 1) done2 (polls + 2)
        ⟨buildingEv :: openedEv :: rest.events, (pt, slice) :: rest.builds,
          part :: rest.openedParts, rest.cancelled, rest.finalDone⟩

/-- `buildQrPdfBatchedAndOpenWithProgress` from `pdf.js`, as a function of
the item list, the `perPage`/`maxPagesPerPdf`/`title` options, and the
`isCancelled` poll results. -/
def buildQrPdfBatchedAndOpenWithProgress {α : Type} (items : List α)
    (perPage maxPagesPerPdf : Nat) (title : String) (isCancelled : Nat → Bool) :
    BatchRun α :=
  let itemsPerPdf := perPage * maxPagesPerPdf
  if items.length = 0 then ⟨[], [], [], Except.error "No items to export."⟩
  else
    let totalParts := (items.length + itemsPerPdf - 1) / itemsPerPdf
    let batchingEvs : List ProgressEvent :=
      if 1 < totalParts then
        [⟨ProgressPhase.batching, 0, totalParts, 0, items.length, items.length,
          "Large export detected (" ++ toString items.length ++ " QRs). Creating " ++
            toString totalParts ++ " PDFs in batches of " ++ toString maxPagesPerPdf ++
            " pages."⟩]
      else []
    let lr := batchLoop items itemsPerPdf totalParts title isCancelled totalParts 0 0 0
    if lr.cancelled then
      ⟨batchingEvs ++ lr.events, lr.builds, lr.openedParts, Except.ok (true, totalParts)⟩
    else
      ⟨batchingEvs ++ lr.events ++
        [⟨ProgressPhase.done, totalParts, totalParts, lr.finalDone, items.length, 0,
          "All PDFs generated. (" ++ toString lr.finalDone ++ "/" ++
            toString items.length ++ ")"⟩],
        lr.builds, lr.openedParts, Except.ok (false, totalParts)⟩

/-- Expected `building` event of a part that completes while every earlier
part was full (so `done = part * ipp` and the slice holds `ipp` items). -/
def buildingEvent (n ipp totalParts part : Nat) : ProgressEvent :=
  ⟨ProgressPhase.building, part + 1, totalParts, part * ipp, n, n - part * ipp,
    "Building PDF " ++ toString (part + 1) ++ "/" ++ toString totalParts ++
      " (" ++ toString ipp ++ " QRs)..."⟩

/-- Expected `opened` event of a full part. -/
def openedEvent (n ipp totalParts part : Nat) : ProgressEvent :=
  ⟨ProgressPhase.opened, part + 1, totalParts, (part + 1) * ipp, n,
    n - (part + 1) * ipp,
    "Finished PDF " ++ toString (part + 1) ++ "/" ++ toString totalParts ++
      ". (" ++ toString ((part + 1) * ipp) ++ "/" ++ toString n ++ " done, " ++
      toString (n - (part + 1) * ipp) ++ " remaining)"⟩

/-- Expected `cancelled` event emitted at the first checkpoint of a part. -/
def cancelledEvent (n totalParts part doneAcc : Nat) : ProgressEvent :=
  ⟨ProgressPhase.cancelled, part + 1, totalParts, doneAcc, n, n - doneAcc,
    "Cancelled. " ++ toString doneAcc ++ "/" ++ toString n ++ " completed."⟩

/-- Events of `k` consecutive full parts starting at index `part`. -/
def okEvents (n ipp totalParts : Nat) : Nat → Nat → List ProgressEvent
  | _, 0 => []
  | part, k + 1 =>
    buildingEvent n ipp totalParts part :: openedEvent n ipp totalParts part ::
      okEvents n ipp totalParts (part + 1) k

/-- The per-event invariant of claim C10: totals are the item count,
`remaining` complements `done`, and `done` is a whole number of full
parts (or the whole job). -/
def eventInvariant (n ipp : Nat) (e : ProgressEvent) : Prop :=
  e.total = n ∧ e.done ≤ n ∧ e.remaining = n - e.done ∧
    (e.done = n ∨ e.done % ipp = 0)

/-- All events of a list satisfy `P` (conjunction form). -/
def allEvents (P : ProgressEvent → Prop) : List ProgressEvent → Prop
  | [] => True
  | e :: es => P e ∧ allEvents P es

/-! ### Trim and carry-forward lemmas -/

theorem dropWhile_dropWhile_eq (p : Char → Bool) (l : List Char) :
    (l.dropWhile p).dropWhile p = l.dropWhile p := by
  induction l with
  | nil => rfl
  | cons c cs ih =>
    by_cases h : p c
    · simp [List.dropWhile_cons, h, ih]
    · simp [List.dropWhile_cons, h]

theorem dropWhile_head_false (p : Char → Bool) (l : List Char) (c : Char)
    (t : List Char) (h : l.dropWhile p = c :: t) : p c = false := by
  have := List.head?_dropWhile_not p l
  rw [h] at this
  simpa using this

theorem trimChars_idem (p : Char → Bool) (l : List Char) :
    trimChars p (trimChars p l) = trimChars p l := by
  unfold trimChars
  set A := l.dropWhile p with hA
  set B := A.reverse.dropWhile p with hB
  have hpre : B.reverse <+: A := by
    rw [← List.reverse_reverse A]
    exact List.reverse_prefix.mpr (List.dropWhile_suffix p)
  have step1 : B.reverse.dropWhile p = B.reverse := by
    cases hrev : B.reverse with
    | nil => rfl
    | cons c t =>
      obtain ⟨u, hu⟩ := hpre
      rw [hrev] at hu
      have hAhead : A = c :: (t ++ u) := by
        rw [← hu]; simp
      have : p c = false := dropWhile_head_false p l c (t ++ u) (hA ▸ hAhead)
      simp [hrev, List.dropWhile_cons, this]
  rw [step1, List.reverse_reverse, hB, dropWhile_dropWhile_eq]

theorem jsTrim_mk (l : List Char) : jsTrim ⟨l⟩ = ⟨trimChars isJsWhitespace l⟩ := rfl

theorem jsTrim_idem (s : String) : jsTrim (jsTrim s) = jsTrim s := by
  cases s with
  | mk data =>
    rw [jsTrim_mk, jsTrim_mk, trimChars_idem]

theorem cellStr_idem (s : String) : cellStr (cellStr s) = cellStr s :=
  jsTrim_idem s

theorem carryForwardAux_idem (xs : List String) :
    ∀ last : String, cellStr last = last →
      carryForwardAux last (carryForwardAux last xs) = carryForwardAux last xs := by
  induction xs with
  | nil => intro last _; rfl
  | cons v rest ih =>
    intro last hlast
    by_cases hv : cellStr v = ""
    · rw [carryForwardAux, if_pos hv]
      by_cases hl : last = ""
      · rw [carryForwardAux, if_pos (by rw [hlast, hl]), ih last hlast]
      · rw [carryForwardAux, if_neg (by rw [hlast]; exact hl), hlast, ih last hlast]
    · rw [carryForwardAux, if_neg hv]
      rw [carryForwardAux, if_neg hv, ih (cellStr v) (cellStr_idem v)]

/-! ### JSON payload lemmas -/

theorem jsonEscapeChar_plain (c : Char) (h1 : c ≠ '"') (h2 : c ≠ '\\')
    (h3 : 32 ≤ c.toNat) : jsonEscapeChar c = [c] := by
  have n8 : c ≠ '\x08' := fun h => by subst h; exact absurd h3 (by decide)
  have n9 : c ≠ '\t' := fun h => by subst h; exact absurd h3 (by decide)
  have n10 : c ≠ '\n' := fun h => by subst h; exact absurd h3 (by decide)
  have n12 : c ≠ '\x0c' := fun h => by subst h; exact absurd h3 (by decide)
  have n13 : c ≠ '\x0d' := fun h => by subst h; exact absurd h3 (by decide)
  have n32 : ¬(c.toNat < 32) := by omega
  simp only [jsonEscapeChar, if_neg h1, if_neg h2, if_neg n8, if_neg n9, if_neg n10,
    if_neg n12, if_neg n13, if_neg n32]

theorem escapeChars_plain (l : List Char)
    (h : ∀ c ∈ l, c ≠ '"' ∧ c ≠ '\\' ∧ 32 ≤ c.toNat) : escapeChars l = l := by
  induction l with
  | nil => rfl
  | cons c cs ih =>
    have hc := h c (by simp)
    rw [escapeChars, jsonEscapeChar_plain c hc.1 hc.2.1 hc.2.2,
      ih (fun d hd => h d (by simp [hd]))]
    rfl

theorem string_mk_append (a b : List Char) : (⟨a⟩ ++ ⟨b⟩ : String) = ⟨a ++ b⟩ := rfl

theorem jsonQuote_plain (s : String)
    (h : ∀ c ∈ s.data, c ≠ '"' ∧ c ≠ '\\' ∧ 32 ≤ c.toNat) :
    jsonQuote s = "\"" ++ s ++ "\"" := by
  cases s with
  | mk l =>
    show String.mk ('"' :: (escapeChars l ++ ['"'])) = "\"" ++ ⟨l⟩ ++ "\""
    rw [escapeChars_plain l h]
    apply String.ext
    simp

theorem buildPayload_plain (username groupCode : String)
    (hu : ∀ c ∈ username.data, c ≠ '"' ∧ c ≠ '\\' ∧ 32 ≤ c.toNat)
    (hg : ∀ c ∈ groupCode.data, c ≠ '"' ∧ c ≠ '\\' ∧ 32 ≤ c.toNat) :
    buildPayload username groupCode =
      "\x7b\"version\":\"1.0\",\"username\":\"" ++ username ++
        "\",\"groupcode\":\"" ++ groupCode ++ "\"\x7d" := by
  rw [buildPayload, jsonQuote_plain username hu, jsonQuote_plain groupCode hg]
  apply String.ext
  have e1 : ("\x7b\"version\":\"1.0\",\"username\":\"" : String).data =
      ("\x7b\"version\":\"1.0\",\"username\":" : String).data ++ ['\"'] := rfl
  have e2 : ("\",\"groupcode\":\"" : String).data =
      ['\"'] ++ (",\"groupcode\":" : String).data ++ ['\"'] := rfl
  have e3 : ("\"\x7d" : String).data = ['\"'] ++ ("\x7d" : String).data := rfl
  simp [e1, e2, e3]

/-! ### Padding lemmas -/

theorem strRepeat_length (c : String) (n : Nat) :
    (strRepeat c n).length = n * c.length := by
  induction n with
  | zero => rw [Nat.zero_mul]; rfl
  | succ n ih =>
    rw [strRepeat, String.length_append, ih, Nat.succ_mul]
    omega

theorem string_empty_append (s : String) : "" ++ s = s := by
  apply String.ext
  rw [String.data_append]
  rfl

/-! ### Claim theorems -/

/-- Claim C9: `carryForward` is idempotent — applying carry-forward twice
to any sequence of cell values yields the same result as applying it once. -/
theorem claim_c9_carryforward_idempotent (values : List String) :
    carryForward (carryForward values) = carryForward values :=
  carryForwardAux_idem values "" (by rfl)

/-- Claim C1: `buildPayload` returns exactly the compact JSON string with
key order `version`, `username`, `groupcode`, no extra whitespace, both
value fields as (quoted) strings, and leading zeros of the group code
preserved (the hypotheses restrict the field values to characters that
`JSON.stringify` leaves unescaped; determinism is definitional since
`buildPayload` is a function of its inputs). -/
theorem claim_c1_payload_format (username groupCode : String)
    (hu : ∀ c ∈ username.data, c ≠ '"' ∧ c ≠ '\\' ∧ 32 ≤ c.toNat)
    (hg : ∀ c ∈ groupCode.data, c ≠ '"' ∧ c ≠ '\\' ∧ 32 ≤ c.toNat) :
    buildPayload username groupCode =
      "\x7b\"version\":\"1.0\",\"username\":\"" ++ username ++
        "\",\"groupcode\":\"" ++ groupCode ++ "\"\x7d"
    ∧ buildPayload username "0004" =
      "\x7b\"version\":\"1.0\",\"username\":\"" ++ username ++
        "\",\"groupcode\":\"0004\"\x7d" := by
  constructor
  · exact buildPayload_plain username groupCode hu hg
  · rw [buildPayload_plain username "0004" hu (by decide)]
    apply String.ext
    have efold : ("\",\"groupcode\":\"0004\"\x7d" : String).data =
        ("\",\"groupcode\":\"" : String).data ++ ("0004" : String).data ++
          ("\"\x7d" : String).data := rfl
    simp [efold]

/-- Witness for C1 at a concrete username and group code. -/
theorem claim_c1_payload_format_witness :
    buildPayload "alice.048" "0004" =
      "\x7b\"version\":\"1.0\",\"username\":\"" ++ "alice.048" ++
        "\",\"groupcode\":\"" ++ "0004" ++ "\"\x7d" :=
  (claim_c1_payload_format "alice.048" "0004" (by decide) (by decide)).1

/-- Claim C5: `buildUsername` trims the prefix, keeps only the digits of
the headset number, and pads the digit string on the left with zeros to
exactly `headsetPad` characters when it is at most `headsetPad` long,
leaving it unchanged (no truncation) when it is longer. -/
theorem claim_c5_username_padding (prefixStr headsetNumber : String) (headsetPad : Nat) :
    buildUsername prefixStr headsetNumber headsetPad
        = jsTrim prefixStr ++ "." ++ padLeft (onlyDigits headsetNumber) headsetPad "0"
    ∧ ((onlyDigits headsetNumber).length ≤ headsetPad →
        (padLeft (onlyDigits headsetNumber) headsetPad "0").length = headsetPad
        ∧ padLeft (onlyDigits headsetNumber) headsetPad "0"
            = strRepeat "0" (headsetPad - (onlyDigits headsetNumber).length) ++
                onlyDigits headsetNumber)
    ∧ (headsetPad < (onlyDigits headsetNumber).length →
        padLeft (onlyDigits headsetNumber) headsetPad "0" = onlyDigits headsetNumber)
    ∧ onlyDigits "h48" = "48"
    ∧ buildUsername "a" "48" 3 = "a.048"
    ∧ buildUsername "a" "10000" 3 = "a.10000" := by
  refine ⟨rfl, ?_, ?_, by decide, by decide, by decide⟩
  · intro hle
    by_cases hge : (onlyDigits headsetNumber).length ≥ headsetPad
    · have heq : (onlyDigits headsetNumber).length = headsetPad := by omega
      rw [padLeft, if_pos hge, heq]
      refine ⟨rfl, ?_⟩
      rw [Nat.sub_self, show strRepeat "0" 0 = "" from rfl, string_empty_append]
    · rw [padLeft, if_neg hge, String.length_append, strRepeat_length]
      constructor
      · have : ("0" : String).length = 1 := rfl
        rw [this]
        omega
      · rfl
  · intro hlt
    rw [padLeft, if_pos (by omega)]

/-- Witness for C5: padding and no-truncation at concrete inputs. -/
theorem claim_c5_username_padding_witness :
    (padLeft (onlyDigits "48") 3 "0").length = 3 ∧ buildUsername "a" "48" 3 = "a.048" :=
  ⟨((claim_c5_username_padding "a" "48" 3).2.1 (by decide)).1,
    (claim_c5_username_padding "a" "48" 3).2.2.2.2.1⟩

/-- Claim C6: `isProbablyHeaderRow` returns true iff at least two cells,
after normalization, are in the fixed vocabulary; a row with exactly two
recognized labels (here via case/hyphen/space variants) is detected and a
row with exactly one is not. -/
theorem claim_c6_header_detection (row : List String) :
    (isProbablyHeaderRow row = true ↔
      2 ≤ (row.map (fun c => normalizeKey (cellStr c))).countP
        (fun k => knownLabels.contains k))
    ∧ isProbablyHeaderRow ["Group-Code", " PERIOD ", "student"] = true
    ∧ isProbablyHeaderRow ["Group-Code", "student", "other"] = false := by
  refine ⟨?_, by decide, by decide⟩
  by_cases h : row.length < 2
  · have hle : (row.map (fun c => normalizeKey (cellStr c))).countP
        (fun k => knownLabels.contains k) ≤ row.length := by
      have := List.countP_le_length (l := row.map (fun c => normalizeKey (cellStr c)))
        (p := fun k => knownLabels.contains k)
      simpa using this
    rw [isProbablyHeaderRow, if_pos h]
    constructor
    · intro hfalse; cases hfalse
    · intro h2; omega
  · rw [isProbablyHeaderRow, if_neg h]
    exact decide_eq_true_iff

/-- Claim C7 helper: the `pick` loop returns the value of the first key
present with a non-empty value. -/
theorem pick_eq_firstPresent (r : String → Option String) (keys : List String) :
    pick r keys = firstPresentNonEmpty r keys := by
  induction keys with
  | nil => rfl
  | cons k ks ih =>
    rw [pick, firstPresentNonEmpty, List.filterMap_cons]
    cases hk : r k with
    | none => rw [ih]; rfl
    | some v =>
      by_cases hv : v = ""
      · simp only [if_pos hv, ih]; rfl
      · simp only [if_neg hv]; rfl

/-- Claim C7: on the header path each canonical field is the value of the
first synonym key present with a non-empty value (earlier-declared
synonyms win; absent fields come out `none`), exemplified by `group_code`
beating `groupcode`. -/
theorem claim_c7_synonym_order (r : String → Option String) :
    (normalizeCsvRowHeader r).group = firstPresentNonEmpty r groupKeys
    ∧ (normalizeCsvRowHeader r).period = firstPresentNonEmpty r periodKeys
    ∧ (normalizeCsvRowHeader r).headset = firstPresentNonEmpty r headsetKeys
    ∧ (normalizeCsvRowHeader r).prefixStr = firstPresentNonEmpty r prefixKeys
    ∧ (normalizeCsvRowHeader r).pad = firstPresentNonEmpty r padKeys
    ∧ (normalizeCsvRowHeader (fun k =>
        if k = "group_code" then some "A" else
        if k = "groupcode" then some "B" else none)).group = some "A" := by
  refine ⟨pick_eq_firstPresent r groupKeys, pick_eq_firstPresent r periodKeys,
    pick_eq_firstPresent r headsetKeys, pick_eq_firstPresent r prefixKeys,
    pick_eq_firstPresent r padKeys, by decide⟩

/-- Counting helper: a list splits into elements satisfying `p` and not. -/
theorem countP_add_countP_not {α : Type} (p : α → Bool) (l : List α) :
    l.countP p + l.countP (fun a => !(p a)) = l.length := by
  induction l with
  | nil => rfl
  | cons a l ih =>
    by_cases h : p a <;> simp [List.countP_cons, h] <;> omega

/-- Claim C8: a normalized row enters the candidate set iff at least one
of group/period/headset is non-empty; the ok/bad tallies cover exactly
the candidate set, and an all-empty row is dropped before validation and
changes neither tally. -/
theorem claim_c8_row_usability (normalized : List CanonicalRow)
    (valid : CanonicalRow → Bool) (r : CanonicalRow) :
    (r ∈ candidateRows normalized ↔ r ∈ normalized ∧ usableRow r = true)
    ∧ (csvOkBad valid normalized).1 + (csvOkBad valid normalized).2 =
        (candidateRows normalized).length
    ∧ (∀ pre post : List CanonicalRow, usableRow r = false →
        candidateRows (pre ++ r :: post) = candidateRows (pre ++ post)
        ∧ csvOkBad valid (pre ++ r :: post) = csvOkBad valid (pre ++ post)) := by
  refine ⟨List.mem_filter, countP_add_countP_not valid (candidateRows normalized), ?_⟩
  intro pre post h
  have hc : candidateRows (pre ++ r :: post) = candidateRows (pre ++ post) := by
    simp [candidateRows, List.filter_append, h]
  exact ⟨hc, by rw [csvOkBad, csvOkBad, hc]⟩

/-- Witness for C8: an all-empty row is dropped from the candidate set. -/
theorem claim_c8_row_usability_witness :
    candidateRows ([] ++ (⟨none, none, none, none, none⟩ : CanonicalRow) :: []) =
      candidateRows ([] ++ []) :=
  ((claim_c8_row_usability [] (fun _ => true) ⟨none, none, none, none, none⟩).2.2
    [] [] (by decide)).1

/-- Claim C2 counterexample: on the two-row grid of the claim, where the
usernames sit in the `Usernames` label row itself, `extractMasterUsernames`
reads usernames only from rows strictly after that row and returns the
empty list, not the three claimed entries. -/
theorem claim_c2_counterexample :
    extractMasterUsernames
        [["Group code", "0001", "", "0002"], ["Usernames", "alice", "bob", "carol"]] = []
    ∧ extractMasterUsernames
        [["Group code", "0001", "", "0002"], ["Usernames", "alice", "bob", "carol"]] ≠
      [⟨"0001", "alice", "", ""⟩, ⟨"0001", "bob", "", ""⟩, ⟨"0002", "carol", "", ""⟩] := by
  refine ⟨by decide, by decide⟩

/-- Claim C2 (amended): with the usernames in the row following the
`Usernames` label row, extraction returns exactly the three entries, the
blank group-code cell inheriting `"0001"` by carry-forward, teacher and
period empty. -/
theorem claim_c2_master_extraction :
    extractMasterUsernames
        [["Group code", "0001", "", "0002"], ["Usernames"], ["", "alice", "bob", "carol"]] =
      [⟨"0001", "alice", "", ""⟩, ⟨"0001", "bob", "", ""⟩, ⟨"0002", "carol", "", ""⟩] := by
  decide

/-! ### Orchestrator lemmas -/

theorem ceil_parts_mul_lt (n ipp p : Nat) (hipp : 0 < ipp)
    (hp : p < (n + ipp - 1) / ipp) : p * ipp < n := by
  have hdm : ipp * ((n + ipp - 1) / ipp) + (n + ipp - 1) % ipp = n + ipp - 1 :=
    Nat.div_add_mod _ _
  rw [Nat.mul_comm] at hdm
  have hr : (n + ipp - 1) % ipp < ipp := Nat.mod_lt _ hipp
  have hmul : (p + 1) * ipp ≤ ((n + ipp - 1) / ipp) * ipp :=
    Nat.mul_le_mul_right ipp (by omega)
  have hs : (p + 1) * ipp = p * ipp + ipp := Nat.succ_mul p ipp
  omega

theorem le_ceil_parts_mul (n ipp : Nat) (hipp : 0 < ipp) :
    n ≤ ((n + ipp - 1) / ipp) * ipp := by
  have hdm : ipp * ((n + ipp - 1) / ipp) + (n + ipp - 1) % ipp = n + ipp - 1 :=
    Nat.div_add_mod _ _
  rw [Nat.mul_comm] at hdm
  have hr : (n + ipp - 1) % ipp < ipp := Nat.mod_lt _ hipp
  omega

theorem ceil_parts_pos (n ipp : Nat) (hipp : 0 < ipp) (hn : 0 < n) :
    0 < (n + ipp - 1) / ipp :=
  Nat.div_pos (by omega) hipp

theorem slice_length_full {α : Type} (items : List α) (ipp p : Nat)
    (h : (p + 1) * ipp ≤ items.length) :
    ((items.drop (p * ipp)).take ipp).length = ipp := by
  rw [List.length_take, List.length_drop]
  have hs : (p + 1) * ipp = p * ipp + ipp := Nat.succ_mul p ipp
  omega

theorem batchLoop_cancel_at {α : Type} (items : List α) (ipp totalParts : Nat)
    (title : String) (isC : Nat → Bool)
    (hfull : ∀ p, p < totalParts → p * ipp < items.length) :
    ∀ (k part polls : Nat), part + k < totalParts →
      (∀ j, j < 2 * k → isC (polls + j) = false) →
      isC (polls + 2 * k) = true →
      batchLoop items ipp totalParts title isC (totalParts - part) part (part * ipp) polls =
        ⟨okEvents items.length ipp totalParts part k ++
            [cancelledEvent items.length totalParts (part + k) ((part + k) * ipp)],
          (List.range' part k).map (fun p =>
            (partTitleOf title totalParts p, (items.drop (p * ipp)).take ipp)),
          List.range' part k, true, (part + k) * ipp⟩ := by
  intro k
  induction k with
  | zero =>
    intro part polls hlt _ hcan
    obtain ⟨m, hm⟩ : ∃ m, totalParts - part = m + 1 := ⟨totalParts - part - 1, by omega⟩
    have hc : isC polls = true := by simpa using hcan
    rw [hm, batchLoop, if_pos hc]
    simp [okEvents, cancelledEvent]
  | succ k ih =>
    intro part polls hlt hpre hcan
    obtain ⟨m, hm⟩ : ∃ m, totalParts - part = m + 1 := ⟨totalParts - part - 1, by omega⟩
    have h0 : isC polls = false := by simpa using hpre 0 (by omega)
    have h1 : isC (polls + 1) = false := hpre 1 (by omega)
    have hslice : ((items.drop (part * ipp)).take ipp).length = ipp :=
      slice_length_full items ipp part (le_of_lt (hfull (part + 1) (by omega)))
    have hd2 : part * ipp + ipp = (part + 1) * ipp := (Nat.succ_mul part ipp).symm
    have hm2 : m = totalParts - (part + 1) := by omega
    have hrest := ih (part + 1) (polls + 2) (by omega)
      (fun j hj => by
        have := hpre (j + 2) (by omega)
        rwa [show polls + (j + 2) = polls + 2 + j from by omega] at this)
      (by rwa [show polls + 2 + 2 * k = polls + 2 * (k + 1) from by omega])
    have hppk : part + (k + 1) = part + 1 + k := by omega
    have hrange : List.range' part (k + 1) = part :: List.range' (part + 1) k := rfl
    rw [hm, batchLoop, if_neg (by simp [h0]), if_neg (by simp [h1])]
    simp only [hslice, hd2, hm2, hrest, hppk, hrange, okEvents, buildingEvent,
      openedEvent, cancelledEvent, List.map_cons, List.cons_append, LoopOut.mk.injEq]

theorem batchLoop_nocancel {α : Type} (items : List α) (ipp totalParts : Nat)
    (title : String) (isC : Nat → Bool) (hC : ∀ n, isC n = false) :
    ∀ (partsLeft part doneAcc polls : Nat),
      (batchLoop items ipp totalParts title isC partsLeft part doneAcc polls).cancelled = false
      ∧ (batchLoop items ipp totalParts title isC partsLeft part doneAcc polls).builds.length
          = partsLeft := by
  intro partsLeft
  induction partsLeft with
  | zero => intro part doneAcc polls; exact ⟨rfl, rfl⟩
  | succ m ih =>
    intro part doneAcc polls
    rw [batchLoop, if_neg (by simp [hC polls]), if_neg (by simp [hC (polls + 1)])]
    have h2 := ih (part + 1) (doneAcc + ((items.drop (part * ipp)).take ipp).length) (polls + 2)
    simp only [List.length_cons, h2.1, h2.2, and_self]

/-- Claim C4: for a non-empty item list the orchestrator reports exactly
`totalParts = ceil(N / (perPage * maxPagesPerPdf))` parts (and, absent
cancellation, invokes the document builder exactly that many times), while
for an empty list it throws `"No items to export."` before any part is
built and before any progress event is emitted. -/
theorem claim_c4_part_count {α : Type} (items : List α) (perPage maxPagesPerPdf : Nat)
    (title : String) (isC : Nat → Bool) (hipp : 0 < perPage * maxPagesPerPdf) :
    (items = [] →
      buildQrPdfBatchedAndOpenWithProgress items perPage maxPagesPerPdf title isC =
        ⟨[], [], [], Except.error "No items to export."⟩)
    ∧ (items ≠ [] →
      (∃ c : Bool,
        (buildQrPdfBatchedAndOpenWithProgress items perPage maxPagesPerPdf title isC).outcome =
          Except.ok (c,
            (items.length + perPage * maxPagesPerPdf - 1) / (perPage * maxPagesPerPdf)))
      ∧ ((∀ n, isC n = false) →
        (buildQrPdfBatchedAndOpenWithProgress items perPage maxPagesPerPdf title isC).outcome =
          Except.ok (false,
            (items.length + perPage * maxPagesPerPdf - 1) / (perPage * maxPagesPerPdf))
        ∧ (buildQrPdfBatchedAndOpenWithProgress items perPage maxPagesPerPdf title isC).builds.length =
            (items.length + perPage * maxPagesPerPdf - 1) / (perPage * maxPagesPerPdf))) := by
  constructor
  · intro h
    subst h
    rfl
  · intro hne
    have hN0 : ¬(items.length = 0) := by
      simpa using fun h => hne (List.length_eq_zero.mp h)
    constructor
    · refine ⟨(batchLoop items (perPage * maxPagesPerPdf)
        ((items.length + perPage * maxPagesPerPdf - 1) / (perPage * maxPagesPerPdf))
        title isC
        ((items.length + perPage * maxPagesPerPdf - 1) / (perPage * maxPagesPerPdf))
        0 0 0).cancelled, ?_⟩
      rw [buildQrPdfBatchedAndOpenWithProgress, if_neg hN0]
      cases hcval : (batchLoop items (perPage * maxPagesPerPdf)
          ((items.length + perPage * maxPagesPerPdf - 1) / (perPage * maxPagesPerPdf))
          title isC
          ((items.length + perPage * maxPagesPerPdf - 1) / (perPage * maxPagesPerPdf))
          0 0 0).cancelled <;>
        simp [hcval]
    · intro hC
      have hnc := batchLoop_nocancel items (perPage * maxPagesPerPdf)
        ((items.length + perPage * maxPagesPerPdf - 1) / (perPage * maxPagesPerPdf))
        title isC hC
        ((items.length + perPage * maxPagesPerPdf - 1) / (perPage * maxPagesPerPdf))
        0 0 0
      rw [buildQrPdfBatchedAndOpenWithProgress, if_neg hN0]
      simp [hnc.1, hnc.2]

/-- Witness for C4: the empty-list branch and the part count at a
concrete non-empty input. -/
theorem claim_c4_part_count_witness :
    (buildQrPdfBatchedAndOpenWithProgress ([] : List String) 12 10 "T" (fun _ => false) =
      ⟨[], [], [], Except.error "No items to export."⟩)
    ∧ (buildQrPdfBatchedAndOpenWithProgress ["u"] 12 10 "T" (fun _ => false)).outcome =
        Except.ok (false, (1 + 12 * 10 - 1) / (12 * 10)) :=
  ⟨(claim_c4_part_count ([] : List String) 12 10 "T" (fun _ => false) (by decide)).1 rfl,
    (((claim_c4_part_count ["u"] 12 10 "T" (fun _ => false) (by decide)).2
      (by decide)).2 (fun _ => rfl)).1⟩

theorem allEvents_iff_forall (P : ProgressEvent → Prop) (l : List ProgressEvent) :
    allEvents P l ↔ ∀ e ∈ l, P e := by
  induction l with
  | nil => simp [allEvents]
  | cons e es ih => simp [allEvents, ih]

theorem allEvents_append (P : ProgressEvent → Prop) (l1 l2 : List ProgressEvent) :
    allEvents P (l1 ++ l2) ↔ allEvents P l1 ∧ allEvents P l2 := by
  simp [allEvents_iff_forall]
  constructor
  · intro h
    exact ⟨fun e he => h e (Or.inl he), fun e he => h e (Or.inr he)⟩
  · intro h e he
    cases he with
    | inl h1 => exact h.1 e h1
    | inr h2 => exact h.2 e h2

theorem min_mul_cases (n a ipp : Nat) :
    min n (a * ipp) = n ∨ (min n (a * ipp)) % ipp = 0 := by
  rcases le_total n (a * ipp) with h | h
  · left; exact min_eq_left h
  · right; rw [min_eq_right h]; exact Nat.mul_mod_left a ipp

theorem batchLoop_inv {α : Type} (items : List α) (ipp totalParts : Nat)
    (title : String) (isC : Nat → Bool)
    (hfull : ∀ p, p < totalParts → p * ipp < items.length)
    (hcover : items.length ≤ totalParts * ipp) :
    ∀ (partsLeft part polls : Nat), part + partsLeft = totalParts →
      allEvents (eventInvariant items.length ipp)
        (batchLoop items ipp totalParts title isC partsLeft part
          (min items.length (part * ipp)) polls).events
      ∧ List.Pairwise (fun a b => a.done ≤ b.done)
          (batchLoop items ipp totalParts title isC partsLeft part
            (min items.length (part * ipp)) polls).events
      ∧ (∀ e ∈ (batchLoop items ipp totalParts title isC partsLeft part
            (min items.length (part * ipp)) polls).events,
          min items.length (part * ipp) ≤ e.done)
      ∧ min items.length (part * ipp) ≤
          (batchLoop items ipp totalParts title isC partsLeft part
            (min items.length (part * ipp)) polls).finalDone
      ∧ (batchLoop items ipp totalParts title isC partsLeft part
            (min items.length (part * ipp)) polls).finalDone ≤ items.length
      ∧ ((batchLoop items ipp totalParts title isC partsLeft part
            (min items.length (part * ipp)) polls).cancelled = false →
          (batchLoop items ipp totalParts title isC partsLeft part
            (min items.length (part * ipp)) polls).finalDone = items.length) := by
  intro partsLeft
  induction partsLeft with
  | zero =>
    intro part polls h
    have hpt : part = totalParts := by omega
    have hfd : min items.length (part * ipp) = items.length := by
      rw [hpt]; exact min_eq_left hcover
    exact ⟨trivial, List.Pairwise.nil, by simp [batchLoop], le_refl _,
      min_le_left _ _, fun _ => hfd⟩
  | succ m ih =>
    intro part polls h
    have hplt : part < totalParts := by omega
    have hblt : part * ipp < items.length := hfull part hplt
    have hmin : min items.length (part * ipp) = part * ipp := min_eq_right (le_of_lt hblt)
    rw [hmin]
    by_cases hc0 : isC polls = true
    · rw [batchLoop, if_pos hc0]
      refine ⟨⟨⟨rfl, le_of_lt hblt, rfl, Or.inr (Nat.mul_mod_left part ipp)⟩, trivial⟩,
        List.pairwise_singleton _ _, ?_, le_refl _, le_of_lt hblt, ?_⟩
      · intro e he
        simp at he
        subst he
        exact le_refl _
      · intro hfalse
        cases hfalse
    · by_cases hc1 : isC (polls + 1) = true
      · rw [batchLoop, if_neg hc0, if_pos hc1]
        refine ⟨⟨⟨rfl, le_of_lt hblt, rfl, Or.inr (Nat.mul_mod_left part ipp)⟩,
          ⟨rfl, le_of_lt hblt, rfl, Or.inr (Nat.mul_mod_left part ipp)⟩, trivial⟩,
          ?_, ?_, le_refl _, le_of_lt hblt, ?_⟩
        · refine List.Pairwise.cons ?_ (List.pairwise_singleton _ _)
          intro b hb
          simp at hb
          subst hb
          exact le_refl _
        · intro e he
          simp at he
          rcases he with he | he <;> subst he <;> exact le_refl _
        · intro hfalse
          cases hfalse
      · rw [batchLoop, if_neg hc0, if_neg hc1]
        have hslice : ((items.drop (part * ipp)).take ipp).length =
            min ipp (items.length - part * ipp) := by
          rw [List.length_take, List.length_drop]
        have hs : (part + 1) * ipp = part * ipp + ipp := Nat.succ_mul part ipp
        have hd2 : part * ipp + min ipp (items.length - part * ipp) =
            min items.length ((part + 1) * ipp) := by
          rcases le_total ipp (items.length - part * ipp) with hle | hle
          · rw [min_eq_left hle, min_eq_right (by omega)]
            omega
          · rw [min_eq_right hle, min_eq_left (by omega)]
            omega
        have hf1 : part * ipp ≤ min items.length ((part + 1) * ipp) :=
          le_min (le_of_lt hblt) (by omega)
        have hih := ih (part + 1) (polls + 2) (by omega)
        simp only [hslice, hd2]
        obtain ⟨ihAll, ihPair, ihLow, ihLb, ihUb, ihNc⟩ := hih
        have hinv2 : eventInvariant items.length ipp
            (⟨ProgressPhase.opened, part + 1, totalParts,
              min items.length ((part + 1) * ipp), items.length,
              items.length - min items.length ((part + 1) * ipp), "Finished PDF " ++
                toString (part + 1) ++ "/" ++ toString totalParts ++ ". (" ++
                toString (min items.length ((part + 1) * ipp)) ++ "/" ++
                toString items.length ++ " done, " ++
                toString (items.length - min items.length ((part + 1) * ipp)) ++
                " remaining)"⟩ : ProgressEvent) :=
          ⟨rfl, min_le_left _ _, rfl, min_mul_cases items.length (part + 1) ipp⟩
        refine ⟨⟨⟨rfl, le_of_lt hblt, rfl, Or.inr (Nat.mul_mod_left part ipp)⟩,
          hinv2, ?_⟩, ?_, ?_, ?_, ihUb, ihNc⟩
        · exact ihAll
        · refine List.Pairwise.cons ?_ (List.Pairwise.cons ?_ ihPair)
          · intro b hb
            simp at hb
            rcases hb with hb | hb
            · subst hb; exact hf1
            · exact le_trans hf1 (ihLow b hb)
          · intro b hb
            exact ihLow b hb
        · intro e he
          simp at he
          rcases he with he | he | he
          · subst he; exact le_refl _
          · subst he; exact hf1
          · exact le_trans hf1 (ihLow e he)
        · exact le_trans hf1 ihLb

/-- Claim C10: in every progress event of a run, `total` is the item
count, `remaining` complements `done` at the moment of emission, the
`done` values never decrease across successive events (each being a whole
number of full parts' items), and a run that completes reports a terminal
`done` event with `remaining = 0`. -/
theorem claim_c10_progress_invariants {α : Type} (items : List α)
    (perPage maxPagesPerPdf : Nat) (title : String) (isC : Nat → Bool)
    (hipp : 0 < perPage * maxPagesPerPdf) (hne : items ≠ []) :
    allEvents (eventInvariant items.length (perPage * maxPagesPerPdf))
      (buildQrPdfBatchedAndOpenWithProgress items perPage maxPagesPerPdf title isC).events
    ∧ List.Pairwise (fun a b => a.done ≤ b.done)
      (buildQrPdfBatchedAndOpenWithProgress items perPage maxPagesPerPdf title isC).events
    ∧ ((buildQrPdfBatchedAndOpenWithProgress items perPage maxPagesPerPdf title isC).outcome =
        Except.ok (false,
          (items.length + perPage * maxPagesPerPdf - 1) / (perPage * maxPagesPerPdf)) →
      (buildQrPdfBatchedAndOpenWithProgress items perPage maxPagesPerPdf title isC).events.getLast? =
        some ⟨ProgressPhase.done,
          (items.length + perPage * maxPagesPerPdf - 1) / (perPage * maxPagesPerPdf),
          (items.length + perPage * maxPagesPerPdf - 1) / (perPage * maxPagesPerPdf),
          items.length, items.length, 0,
          "All PDFs generated. (" ++ toString items.length ++ "/" ++
            toString items.length ++ ")"⟩) := by
  have hN0 : ¬(items.length = 0) := fun h => hne (List.length_eq_zero.mp h)
  have hfull : ∀ p, p < (items.length + perPage * maxPagesPerPdf - 1) /
      (perPage * maxPagesPerPdf) → p * (perPage * maxPagesPerPdf) < items.length :=
    fun p hp => ceil_parts_mul_lt items.length (perPage * maxPagesPerPdf) p hipp hp
  have hcover := le_ceil_parts_mul items.length (perPage * maxPagesPerPdf) hipp
  have hloop := batchLoop_inv items (perPage * maxPagesPerPdf)
    ((items.length + perPage * maxPagesPerPdf - 1) / (perPage * maxPagesPerPdf))
    title isC hfull hcover
    ((items.length + perPage * maxPagesPerPdf - 1) / (perPage * maxPagesPerPdf))
    0 0 (by omega)
  rw [show min items.length (0 * (perPage * maxPagesPerPdf)) = 0 from by simp] at hloop
  obtain ⟨lAll, lPair, lLow, lLb, lUb, lNc⟩ := hloop
  have lAllMem := (allEvents_iff_forall _ _).mp lAll
  rw [buildQrPdfBatchedAndOpenWithProgress]
  rw [if_neg hN0]
  cases hcval : (batchLoop items (perPage * maxPagesPerPdf)
      ((items.length + perPage * maxPagesPerPdf - 1) / (perPage * maxPagesPerPdf))
      title isC
      ((items.length + perPage * maxPagesPerPdf - 1) / (perPage * maxPagesPerPdf))
      0 0 0).cancelled
  · have hfdN := lNc hcval
    simp only [hcval, Bool.false_eq_true, if_false, hfdN]
    refine ⟨?_, ?_, ?_⟩
    · rw [allEvents_append, allEvents_append]
      refine ⟨⟨?_, lAll⟩, ?_, trivial⟩
      · split <;> simp [allEvents, eventInvariant]
      · exact ⟨rfl, le_refl _, (Nat.sub_self items.length).symm, Or.inl rfl⟩
    · rw [List.pairwise_append]
      refine ⟨?_, List.pairwise_singleton _ _, ?_⟩
      · rw [List.pairwise_append]
        refine ⟨?_, lPair, ?_⟩
        · split <;> simp
        · intro a ha b hb
          have ha0 : a.done = 0 := by
            revert ha
            split
            · intro ha; simp at ha; subst ha; rfl
            · intro ha; simp at ha
          rw [ha0]
          exact Nat.zero_le _
      · intro a ha b hb
        simp at hb
        subst hb
        show a.done ≤ items.length
        rcases List.mem_append.mp ha with h | h
        · have ha0 : a.done = 0 := by
            revert h
            split
            · intro h; simp at h; subst h; rfl
            · intro h; simp at h
          rw [ha0]
          exact Nat.zero_le _
        · exact (lAllMem a h).2.1
    · intro _
      rw [List.getLast?_concat]
  · simp only [hcval, if_true]
    refine ⟨?_, ?_, ?_⟩
    · rw [allEvents_append]
      refine ⟨?_, lAll⟩
      split <;> simp [allEvents, eventInvariant]
    · rw [List.pairwise_append]
      refine ⟨?_, lPair, ?_⟩
      · split <;> simp
      · intro a ha b hb
        have ha0 : a.done = 0 := by
          revert ha
          split
          · intro ha; simp at ha; subst ha; rfl
          · intro ha; simp at ha
        rw [ha0]
        exact Nat.zero_le _
    · intro hout
      simp at hout

/-- Witness for C10 at a concrete two-item run with no cancellation. -/
theorem claim_c10_progress_invariants_witness :
    allEvents (eventInvariant (["a", "b"] : List String).length (1 * 1))
      (buildQrPdfBatchedAndOpenWithProgress ["a", "b"] 1 1 "t" (fun _ => false)).events
    ∧ List.Pairwise (fun a b => a.done ≤ b.done)
      (buildQrPdfBatchedAndOpenWithProgress ["a", "b"] 1 1 "t" (fun _ => false)).events
    ∧ ((buildQrPdfBatchedAndOpenWithProgress ["a", "b"] 1 1 "t" (fun _ => false)).outcome =
        Except.ok (false, ((["a", "b"] : List String).length + 1 * 1 - 1) / (1 * 1)) →
      (buildQrPdfBatchedAndOpenWithProgress ["a", "b"] 1 1 "t"
          (fun _ => false)).events.getLast? =
        some ⟨ProgressPhase.done, ((["a", "b"] : List String).length + 1 * 1 - 1) / (1 * 1),
          ((["a", "b"] : List String).length + 1 * 1 - 1) / (1 * 1),
          (["a", "b"] : List String).length, (["a", "b"] : List String).length, 0,
          "All PDFs generated. (" ++ toString (["a", "b"] : List String).length ++ "/" ++
            toString (["a", "b"] : List String).length ++ ")"⟩) :=
  claim_c10_progress_invariants ["a", "b"] 1 1 "t" (fun _ => false) (by decide) (by decide)

/-- Claim C3: if the cancellation predicate first returns true at the
checkpoint before part `k` starts, the run has built and presented exactly
parts `0..k-1` (all full, so `done = k * itemsPerPdf`), never invokes the
document builder for part `k` or later, ends with a `cancelled` event, and
returns `cancelled = true` with `totalParts` still `ceil(N / itemsPerPdf)`. -/
theorem claim_c3_cancellation_checkpoint {α : Type} (items : List α)
    (perPage maxPagesPerPdf : Nat) (title : String) (isC : Nat → Bool) (k : Nat)
    (hipp : 0 < perPage * maxPagesPerPdf) (hne : items ≠ [])
    (hk : k < (items.length + perPage * maxPagesPerPdf - 1) / (perPage * maxPagesPerPdf))
    (hpre : ∀ j, j < 2 * k → isC j = false)
    (hcan : isC (2 * k) = true) :
    (buildQrPdfBatchedAndOpenWithProgress items perPage maxPagesPerPdf title isC).openedParts =
        List.range k
    ∧ (buildQrPdfBatchedAndOpenWithProgress items perPage maxPagesPerPdf title isC).builds =
        (List.range k).map (fun p =>
          (partTitleOf title
              ((items.length + perPage * maxPagesPerPdf - 1) / (perPage * maxPagesPerPdf)) p,
            (items.drop (p * (perPage * maxPagesPerPdf))).take (perPage * maxPagesPerPdf)))
    ∧ (∀ b ∈ (buildQrPdfBatchedAndOpenWithProgress items perPage maxPagesPerPdf title isC).builds,
        (b.2).length = perPage * maxPagesPerPdf)
    ∧ (buildQrPdfBatchedAndOpenWithProgress items perPage maxPagesPerPdf title isC).outcome =
        Except.ok (true,
          (items.length + perPage * maxPagesPerPdf - 1) / (perPage * maxPagesPerPdf))
    ∧ (buildQrPdfBatchedAndOpenWithProgress items perPage maxPagesPerPdf title isC).events.getLast? =
        some (cancelledEvent items.length
          ((items.length + perPage * maxPagesPerPdf - 1) / (perPage * maxPagesPerPdf)) k
          (k * (perPage * maxPagesPerPdf))) := by
  have hN0 : ¬(items.length = 0) := fun h => hne (List.length_eq_zero.mp h)
  have hfull : ∀ p, p < (items.length + perPage * maxPagesPerPdf - 1) /
      (perPage * maxPagesPerPdf) → p * (perPage * maxPagesPerPdf) < items.length :=
    fun p hp => ceil_parts_mul_lt items.length (perPage * maxPagesPerPdf) p hipp hp
  have hloop := batchLoop_cancel_at items (perPage * maxPagesPerPdf)
    ((items.length + perPage * maxPagesPerPdf - 1) / (perPage * maxPagesPerPdf))
    title isC hfull k 0 0 (by omega)
    (fun j hj => by rw [Nat.zero_add]; exact hpre j hj)
    (by rw [Nat.zero_add]; exact hcan)
  simp only [Nat.sub_zero, Nat.zero_mul, Nat.zero_add] at hloop
  have hrun : buildQrPdfBatchedAndOpenWithProgress items perPage maxPagesPerPdf title isC =
      ⟨(if 1 < (items.length + perPage * maxPagesPerPdf - 1) / (perPage * maxPagesPerPdf) then
          [⟨ProgressPhase.batching, 0,
            (items.length + perPage * maxPagesPerPdf - 1) / (perPage * maxPagesPerPdf), 0,
            items.length, items.length,
            "Large export detected (" ++ toString items.length ++ " QRs). Creating " ++
              toString ((items.length + perPage * maxPagesPerPdf - 1) /
                (perPage * maxPagesPerPdf)) ++
              " PDFs in batches of " ++ toString maxPagesPerPdf ++ " pages."⟩]
        else []) ++
          (okEvents items.length (perPage * maxPagesPerPdf)
              ((items.length + perPage * maxPagesPerPdf - 1) / (perPage * maxPagesPerPdf)) 0 k ++
            [cancelledEvent items.length
              ((items.length + perPage * maxPagesPerPdf - 1) / (perPage * maxPagesPerPdf)) k
              (k * (perPage * maxPagesPerPdf))]),
        (List.range' 0 k).map (fun p =>
          (partTitleOf title
              ((items.length + perPage * maxPagesPerPdf - 1) / (perPage * maxPagesPerPdf)) p,
            (items.drop (p * (perPage * maxPagesPerPdf))).take (perPage * maxPagesPerPdf))),
        List.range' 0 k,
        Except.ok (true,
          (items.length + perPage * maxPagesPerPdf - 1) / (perPage * maxPagesPerPdf))⟩ := by
    rw [buildQrPdfBatchedAndOpenWithProgress, if_neg hN0]
    simp only [hloop]
    rw [if_pos trivial]
  refine ⟨?_, ?_, ?_, ?_, ?_⟩
  · rw [hrun]
    exact (List.range_eq_range' k).symm
  · rw [hrun]
    show (List.range' 0 k).map _ = (List.range k).map _
    rw [List.range_eq_range']
  · rw [hrun]
    intro b hb
    obtain ⟨p, hp, rfl⟩ := List.mem_map.mp hb
    have hpk : p < k := by
      have := List.mem_range'_1.mp hp
      omega
    exact slice_length_full items (perPage * maxPagesPerPdf) p
      (le_of_lt (hfull (p + 1) (by omega)))
  · rw [hrun]
  · rw [hrun]
    show ((_ ++ (_ ++ [_])).getLast? = _)
    rw [← List.append_assoc, List.getLast?_concat]

/-- Witness for C3: cancelling before part 1 of a 2-part job presents
exactly part 0 and reports a cancelled outcome with both parts counted. -/
theorem claim_c3_cancellation_checkpoint_witness :
    (buildQrPdfBatchedAndOpenWithProgress ["a", "b"] 1 1 "t"
        (fun n => decide (n = 2))).openedParts = List.range 1
    ∧ (buildQrPdfBatchedAndOpenWithProgress ["a", "b"] 1 1 "t"
        (fun n => decide (n = 2))).outcome =
      Except.ok (true, ((["a", "b"] : List String).length + 1 * 1 - 1) / (1 * 1)) :=
  ⟨(claim_c3_cancellation_checkpoint ["a", "b"] 1 1 "t" (fun n => decide (n = 2)) 1
      (by decide) (by decide) (by decide) (by decide) (by decide)).1,
    (claim_c3_cancellation_checkpoint ["a", "b"] 1 1 "t" (fun n => decide (n = 2)) 1
      (by decide) (by decide) (by decide) (by decide) (by decide)).2.2.2.1⟩
